import Mathlib

/-!
Verification of the CSV quick profiler (`src/main.py`).

The profiler core is embedded shallowly:
* Python string/number lexing (`str.strip`, `int(...)`, `float(...)`) is
  modelled over ASCII character data (`pyStrip`, `pyIntParseable`,
  `pyFloatParseable`);
* `inferir_tipo_dado` mirrors the try/except chain of `main.py` as a
  chain of non-throwing parse predicates;
* row ingestion (`analisar_csv`'s loop) becomes `colData`;
* `Counter` with `most_common` becomes `frequencyPairs` (distinct keys in
  first-occurrence order, as Python dicts preserve insertion order) and
  `sortByCountDesc` (a stable descending sort on counts, matching
  `heapq.nlargest`'s tie behaviour);
* the per-column report block of `imprimir_relatorio` becomes
  `columnSummary`, and `analisar_csv`'s empty-file branch becomes an
  `Except` error.
-/

/-- Whitespace characters removed by Python's `str.strip()` (ASCII model). -/
def pyIsSpace (c : Char) : Bool :=
  c = ' ' || c = '\t' || c = '\n' || c = '\x0d' || c = '\x0b' || c = '\x0c'

/-- Python's `str.strip()`: drops leading and trailing whitespace. -/
def pyStrip (s : String) : String :=
  String.mk (((s.data.dropWhile pyIsSpace).reverse.dropWhile pyIsSpace).reverse)

/-- A character allowed inside a Python numeric digit group: a base-10 digit
or the `_` separator (PEP 515). -/
def digitOrUnderscore (c : Char) : Bool :=
  c.isDigit || c = '_'

/-- Continuation of a digit group that already saw a digit: digits with
single underscores strictly between digits. -/
def digitRun : List Char → Bool
  | [] => true
  | c :: cs =>
      if c = '_' then
        match cs with
        | [] => false
        | d :: ds => d.isDigit && digitRun ds
      else c.isDigit && digitRun cs

/-- A nonempty Python digit group: starts with a digit, underscores only
between digits. -/
def validDigitRun : List Char → Bool
  | [] => false
  | c :: cs => c.isDigit && digitRun cs

/-- Removes one optional leading `+` or `-`. -/
def stripSign : List Char → List Char
  | c :: rest => if c = '+' || c = '-' then rest else c :: rest
  | [] => []

/-- Python's `int(s)` succeeds on string `s` (base 10): optional surrounding
whitespace, optional sign, then a digit group. -/
def pyIntParseable (s : String) : Bool :=
  validDigitRun (stripSign (pyStrip s).data)

/-- Uppercase form of the lowercase ASCII letters appearing in the non-finite
float keywords. -/
def upperVariant : Char → Char
  | 'i' => 'I'
  | 'n' => 'N'
  | 'f' => 'F'
  | 't' => 'T'
  | 'y' => 'Y'
  | 'a' => 'A'
  | c => c

/-- Case-insensitive match of `cs` against the lowercase keyword `kw`. -/
def matchCI : List Char → List Char → Bool
  | [], [] => true
  | k :: ks, c :: cs => (c = k || c = upperVariant k) && matchCI ks cs
  | _, _ => false

def infKw : List Char := ['i', 'n', 'f']

def infinityKw : List Char := ['i', 'n', 'f', 'i', 'n', 'i', 't', 'y']

def nanKw : List Char := ['n', 'a', 'n']

/-- Exponent digits of a float literal: optional sign then a digit group,
consuming the whole remainder. -/
def expDigits : List Char → Bool
  | c :: rest => if c = '+' || c = '-' then validDigitRun rest else validDigitRun (c :: rest)
  | [] => false

/-- Optional exponent suffix of a float literal. -/
def expPart : List Char → Bool
  | [] => true
  | c :: rest => if c = 'e' || c = 'E' then expDigits rest else false

/-- An unsigned finite Python float literal: `digits [. digits] [exp]` with a
nonempty mantissa, underscores allowed between digits of each group. -/
def pyFloatNumber (cs : List Char) : Bool :=
  let p := cs.span digitOrUnderscore
  match p.2 with
  | c :: r2 =>
      if c = '.' then
        let q := r2.span digitOrUnderscore
        (if p.1.isEmpty then validDigitRun q.1
         else validDigitRun p.1 && (q.1.isEmpty || validDigitRun q.1)) && expPart q.2
      else validDigitRun p.1 && expPart (c :: r2)
  | [] => validDigitRun p.1 && expPart []

/-- Python's `float(s)` succeeds on string `s`: optional surrounding
whitespace, optional sign, then a finite literal or one of the non-finite
keywords `inf`, `infinity`, `nan` (case-insensitive). -/
def pyFloatParseable (s : String) : Bool :=
  let cs := stripSign (pyStrip s).data
  matchCI infKw cs || matchCI infinityKw cs || matchCI nanKw cs || pyFloatNumber cs

/-- `inferir_tipo_dado` of `main.py` (lines 19-36): `""` is `"vazio"`, then
the `int(...)` attempt, then the `float(...)` attempt, else `"string"`. -/
def inferir_tipo_dado (valor : String) : String :=
  if valor = "" then "vazio"
  else if pyIntParseable valor then "int"
  else if pyFloatParseable valor then "float"
  else "string"

/-- Classification of a raw CSV cell as performed by the pipeline: the cell is
stripped at ingestion (`main.py` line 62) before `inferir_tipo_dado` ever
sees it (lines 88 and 104). -/
def classifyCell (s : String) : String :=
  inferir_tipo_dado (pyStrip s)

/-- Values a single well-formed row contributes to the column named `col`:
the stripped cells at every position whose header entry equals `col`
(`main.py` lines 61-62 append `valor.strip()` to `dados_colunas[cabecalho[i]]`,
so duplicate header names share a single entry). -/
def rowValues (cabecalho linha : List String) (col : String) : List String :=
  (List.zip cabecalho linha).filterMap
    (fun p => if p.1 = col then some (pyStrip p.2) else none)

/-- The value list accumulated for column `col` by the ingestion loop of
`analisar_csv` (`main.py` lines 56-62): rows whose field count differs from
the header's are skipped whole; the others contribute their cells in
position order. -/
def colData (cabecalho : List String) (col : String) : List (List String) → List String
  | [] => []
  | linha :: resto =>
      if linha.length = cabecalho.length then
        rowValues cabecalho linha col ++ colData cabecalho col resto
      else colData cabecalho col resto

/-- `freqAux fuel vs` builds the frequency table of `vs`: one pair per
distinct value, in first-occurrence order, carrying its total multiplicity.
`fuel ≥ vs.length` makes the recursion structural. -/
def freqAux : Nat → List String → List (String × Nat)
  | _, [] => []
  | 0, _ :: _ => []
  | fuel + 1, v :: rest =>
      (v, 1 + rest.count v) :: freqAux fuel (rest.filter (fun w => w ≠ v))

/-- Python's `Counter(vs)`: distinct values in first-occurrence (insertion)
order, each with its number of occurrences. -/
def frequencyPairs (vs : List String) : List (String × Nat) :=
  freqAux vs.length vs

/-- Insert a pair into a count-descending list, after every entry with a
strictly larger count and before entries with an equal or smaller one —
the stable placement used by `sorted(..., reverse=True)`/`heapq.nlargest`. -/
def insertByCount (p : String × Nat) : List (String × Nat) → List (String × Nat)
  | [] => [p]
  | q :: qs => if q.2 ≤ p.2 then p :: q :: qs else q :: insertByCount p qs

/-- Stable sort by descending count: with input in first-occurrence order this
is exactly `Counter.most_common`'s ordering (descending count, ties in
first-encounter order). -/
def sortByCountDesc (l : List (String × Nat)) : List (String × Nat) :=
  l.foldr insertByCount []

/-- `Counter(vs).most_common(n)`. -/
def mostCommon (vs : List String) (n : Nat) : List (String × Nat) :=
  (sortByCountDesc (frequencyPairs vs)).take n

/-- `tipo_predominante` (`main.py` lines 104-105):
`Counter(inferir_tipo_dado(v) for v in valores_nao_vazios).most_common(1)[0][0]`.
Only reached with a nonempty value list; the empty case is padded with a
dummy pair. -/
def tipo_predominante (naoVazios : List String) : String :=
  ((mostCommon (naoVazios.map inferir_tipo_dado) 1).headD ("", 0)).1

/-- The percentage `contagem / total * 100` rendered to one decimal place
(`main.py` lines 112-113), as an integer number of tenths of a percent
(exact rational rounded to the nearest tenth, halves up — the binary-float
formatting of the source agrees on all inputs considered here). -/
def pctTenths (contagem total : Nat) : Nat :=
  (contagem * 2000 + total) / (total * 2)

/-- The five most common values block (`main.py` lines 109-113): value,
occurrence count, and share of non-empty entries in tenths of a percent. -/
def top5 (naoVazios : List String) : List (String × Nat × Nat) :=
  (mostCommon naoVazios 5).map (fun p => (p.1, p.2, pctTenths p.2 naoVazios.length))

/-- One rendered per-column block of the report: either the all-empty notice
(`main.py` lines 90-92) or the statistics block (lines 94-113). -/
inductive ColumnSummary where
  | allEmpty (name : String)
  | stats (name : String) (naoVazios vazios unicos : Nat)
      (tipoPredominante : String) (maisComuns : List (String × Nat × Nat))
deriving DecidableEq, Repr

/-- The per-column body of `imprimir_relatorio` (`main.py` lines 87-113)
for one column's accumulated values. -/
def columnSummary (coluna : String) (valores : List String) : ColumnSummary :=
  let naoVazios := valores.filter (fun v => v ≠ "")
  if naoVazios.isEmpty then ColumnSummary.allEmpty coluna
  else
    ColumnSummary.stats coluna naoVazios.length (valores.length - naoVazios.length)
      (frequencyPairs naoVazios).length (tipo_predominante naoVazios) (top5 naoVazios)

/-- The column blocks of `imprimir_relatorio` in header order (`main.py`
line 82 iterates over `cabecalho`, so a duplicated name is printed once per
occurrence). -/
def relatorio (cabecalho : List String) (linhas : List (List String)) : List ColumnSummary :=
  cabecalho.map (fun coluna => columnSummary coluna (colData cabecalho coluna linhas))

/-- The one fatal condition of the profiler: the row source yields no rows,
so no header exists (`main.py` lines 44-49, the `StopIteration` branch). -/
inductive AnalysisError where
  | emptyHeader
deriving DecidableEq, Repr

/-- The finished profile: data-row count, column count, per-column blocks. -/
structure Relatorio where
  totalLinhas : Nat
  totalColunas : Nat
  colunas : List ColumnSummary
deriving DecidableEq, Repr

/-- `analisar_csv` on an already-split row sequence (`main.py` lines 38-65):
the first row is the header; no rows at all is the distinct empty-header
failure (lines 47-49: its own handler, a dedicated message, no report). -/
def analisar_csv (linhas : List (List String)) : Except AnalysisError Relatorio :=
  match linhas with
  | [] => Except.error AnalysisError.emptyHeader
  | cabecalho :: corpo =>
      Except.ok ⟨corpo.length, cabecalho.length, relatorio cabecalho corpo⟩

/-- Modelled from the spec: the source's ingestion loop (`main.py` lines
56-60) skips malformed rows without keeping a counter; the spec's
`malformed_row_count` is the number of rows whose field count differs from
the header's column count. -/
def malformed_row_count (cabecalho : List String) (linhas : List (List String)) : Nat :=
  (linhas.filter (fun r => r.length ≠ cabecalho.length)).length

/-- The largest occurrence count appearing in a frequency table. -/
def maxCount (l : List (String × Nat)) : Nat :=
  (l.map Prod.snd).foldr Nat.max 0

/-- Follows the spec's words, for comparison with the source: "the DataType
with the highest tally; tie-break: first type reaching the maximum in the
precedence order Empty < Integer < Float < Text". -/
def specPredominant (naoVazios : List String) : String :=
  let tipos := naoVazios.map inferir_tipo_dado
  let m := Nat.max (tipos.count "vazio") (Nat.max (tipos.count "int")
      (Nat.max (tipos.count "float") (tipos.count "string")))
  if tipos.count "vazio" = m then "vazio"
  else if tipos.count "int" = m then "int"
  else if tipos.count "float" = m then "float"
  else "string"

/-- No two adjacent underscores occur in the character list. -/
def noDoubleUnderscore : List Char → Bool
  | [] => true
  | [_] => true
  | c :: d :: rest => (!(c = '_' && d = '_')) && noDoubleUnderscore (d :: rest)

/-- Follows the claim's words: after trimming, an optional leading sign
followed by base-10 digits only — no separators, no other characters. -/
def specIntegerLexeme (s : String) : Bool :=
  let ds := stripSign (pyStrip s).data
  !ds.isEmpty && ds.all Char.isDigit

/-- The amended integer lexeme: after trimming, an optional leading sign
followed by a nonempty run of base-10 digits in which single underscores may
occur, each strictly between two digits (the Python int-literal rule). -/
def specIntegerLexemeAmended (s : String) : Bool :=
  let ds := stripSign (pyStrip s).data
  !ds.isEmpty && ds.all digitOrUnderscore && !(ds.head? == some '_')
    && !(ds.getLast? == some '_') && noDoubleUnderscore ds

example : inferir_tipo_dado "42" = "int" := by decide
example : inferir_tipo_dado "1_000" = "int" := by decide
example : inferir_tipo_dado "42.0" = "float" := by decide
example : inferir_tipo_dado "-NaN" = "float" := by decide
example : inferir_tipo_dado "+InFiNiTy" = "float" := by decide
example : inferir_tipo_dado "1e10" = "float" := by decide
example : inferir_tipo_dado "1_0.5_2e+1_0" = "float" := by decide
example : inferir_tipo_dado "1_.5" = "string" := by decide
example : inferir_tipo_dado "42abc" = "string" := by decide
example : inferir_tipo_dado "   " = "string" := by decide
example : inferir_tipo_dado " 42 " = "int" := by decide
example : classifyCell "   " = "vazio" := by decide
example : inferir_tipo_dado "" = "vazio" := by decide
example : inferir_tipo_dado "infi" = "string" := by decide
example : inferir_tipo_dado "3__3" = "string" := by decide
example : inferir_tipo_dado "3_" = "string" := by decide
example : inferir_tipo_dado ".5" = "float" := by decide
example : inferir_tipo_dado "5." = "float" := by decide
example : inferir_tipo_dado "." = "string" := by decide
example : inferir_tipo_dado "+-3" = "string" := by decide
example : inferir_tipo_dado "1e" = "string" := by decide
example : colData ["x", "y"] "x" [["1", "2"], ["3"]] = ["1"] := by decide
example : frequencyPairs ["a", "b", "a", "c", "b", "a"] = [("a", 3), ("b", 2), ("c", 1)] := by
  decide
example : top5 ["a", "b", "a", "c", "b", "a"] =
    [("a", 3, 500), ("b", 2, 333), ("c", 1, 167)] := by decide
example : tipo_predominante ["3.5", "2"] = "float" := by decide
example : relatorio ["z"] [[""], [""]] = [ColumnSummary.allEmpty "z"] := by decide
example : analisar_csv [] = Except.error AnalysisError.emptyHeader := rfl

theorem count_add_filter_ne (v : String) (l : List String) :
    l.count v + (l.filter (fun w => w ≠ v)).length = l.length := by
  induction l with
  | nil => rfl
  | cons a t ih =>
    by_cases h : a = v <;> simp [List.count_cons, List.filter_cons, h] at ih ⊢ <;> omega

theorem freqAux_snd_sum :
    ∀ (fuel : Nat) (vs : List String), vs.length ≤ fuel →
      ((freqAux fuel vs).map Prod.snd).sum = vs.length := by
  intro fuel
  induction fuel with
  | zero =>
    intro vs h
    cases vs with
    | nil => rfl
    | cons v t => simp at h
  | succ n ih =>
    intro vs h
    cases vs with
    | nil => rfl
    | cons v t =>
      have ht : t.length ≤ n := by simp at h; omega
      have hflt : (t.filter (fun w => w ≠ v)).length ≤ n :=
        le_trans (List.length_filter_le _ _) ht
      have hc := count_add_filter_ne v t
      simp only [freqAux, List.map_cons, List.sum_cons, ne_eq, decide_not] at hc hflt ⊢
      rw [ih _ hflt]
      simp only [List.length_cons]
      omega

/-- C1: count conservation. For every column and every ingested row
sequence, the column's total observed-value count equals its empty-value
count plus the sum of the counts in its non-empty-value frequency table
(`total_valores = len(valores_coluna)` versus `valores_vazios` plus
`sum(Counter(valores_nao_vazios).values())` in `main.py` lines 95-96, 109). -/
theorem claim_C1 (cabecalho : List String) (col : String) (linhas : List (List String)) :
    (colData cabecalho col linhas).length
      = (colData cabecalho col linhas).count ""
        + ((frequencyPairs ((colData cabecalho col linhas).filter (fun v => v ≠ ""))).map
            Prod.snd).sum := by
  rw [frequencyPairs, freqAux_snd_sum _ _ (le_refl _)]
  have := count_add_filter_ne "" (colData cabecalho col linhas)
  omega

/-- C5: a row source yielding no rows at all makes profiling fail with the
distinct empty-header error — `main.py`'s dedicated `StopIteration` handler
(lines 47-49), which is separate from the generic `except Exception` branch —
and with no report produced; conversely, any nonempty row sequence yields a
report. -/
theorem claim_C5 (linhas : List (List String)) :
    analisar_csv linhas = Except.error AnalysisError.emptyHeader ↔ linhas = [] := by
  cases linhas with
  | nil => simp [analisar_csv]
  | cons cab corpo => simp [analisar_csv]

theorem colData_append (cabecalho : List String) (col : String) (l1 l2 : List (List String)) :
    colData cabecalho col (l1 ++ l2) = colData cabecalho col l1 ++ colData cabecalho col l2 := by
  induction l1 with
  | nil => rfl
  | cons r t ih =>
    by_cases h : r.length = cabecalho.length <;>
      simp [colData, h, ih, List.append_assoc]

/-- C3: ingesting a row whose field count differs from the header's column
count increments the row count but changes no column accumulator
(`main.py` lines 56-60 `continue` before the dispatch loop); concretely,
header `["x","y"]` with rows `[["1","2"],["3"]]` gives row count 2, one
malformed row, and frequency table `{"1": 1}` for column `x`. -/
theorem claim_C3 (cabecalho : List String) (linhas : List (List String)) (linha : List String)
    (h : linha.length ≠ cabecalho.length) :
    ((linhas ++ [linha]).length = linhas.length + 1
      ∧ ∀ col, colData cabecalho col (linhas ++ [linha]) = colData cabecalho col linhas)
    ∧ (([["1", "2"], ["3"]] : List (List String)).length = 2
        ∧ malformed_row_count ["x", "y"] [["1", "2"], ["3"]] = 1
        ∧ frequencyPairs (colData ["x", "y"] "x" [["1", "2"], ["3"]]) = [("1", 1)]) := by
  refine ⟨⟨by simp, fun col => ?_⟩, by decide, by decide, by decide⟩
  rw [colData_append]
  simp [colData, h]

/-- Witness for C3 at header `["x","y"]`, a well-formed first row and the
malformed row `["3"]`. -/
theorem claim_C3_witness :
    ((([["1", "2"]] : List (List String)) ++ [["3"]]).length
        = ([["1", "2"]] : List (List String)).length + 1
      ∧ ∀ col, colData ["x", "y"] col ([["1", "2"]] ++ [["3"]])
          = colData ["x", "y"] col [["1", "2"]])
    ∧ (([["1", "2"], ["3"]] : List (List String)).length = 2
        ∧ malformed_row_count ["x", "y"] [["1", "2"], ["3"]] = 1
        ∧ frequencyPairs (colData ["x", "y"] "x" [["1", "2"], ["3"]]) = [("1", 1)]) :=
  claim_C3 ["x", "y"] [["1", "2"]] ["3"] (by decide)

theorem rowValues_length (col : String) :
    ∀ (cab linha : List String), cab.length = linha.length →
      (rowValues cab linha col).length = cab.count col := by
  intro cab
  induction cab with
  | nil => intro linha _; simp [rowValues]
  | cons c t ih =>
    intro linha h
    cases linha with
    | nil => simp at h
    | cons v vs =>
      have ht : t.length = vs.length := by simp at h; omega
      have ihv := ih vs ht
      simp only [rowValues] at ihv
      simp only [rowValues, List.zip_cons_cons, List.filterMap_cons, List.count_cons]
      by_cases hc : c = col <;> simp [hc, ihv]

/-- C10: a header name occurring at `k` positions routes the cells of all
those positions of every well-formed row into one shared column (`main.py`
line 52 builds one dict entry per distinct name, line 62 appends by name),
so its total count is `k` times the number of well-formed rows; and the
report prints that same merged column once per occurrence of the name
(line 82 iterates over `cabecalho`). -/
theorem claim_C10 (cabecalho : List String) (linhas : List (List String)) (col : String) :
    (colData cabecalho col linhas).length
      = cabecalho.count col * (linhas.filter (fun r => r.length = cabecalho.length)).length
    ∧ ∀ (i j : Nat) (hi : i < cabecalho.length) (hj : j < cabecalho.length),
        cabecalho[i] = cabecalho[j] →
        (relatorio cabecalho linhas)[i]? = (relatorio cabecalho linhas)[j]? := by
  constructor
  · induction linhas with
    | nil => simp [colData]
    | cons r t ih =>
      by_cases h : r.length = cabecalho.length
      · have hflt : (List.filter (fun r => decide (r.length = cabecalho.length)) (r :: t))
            = r :: List.filter (fun r => decide (r.length = cabecalho.length)) t := by
          simp [List.filter_cons, h]
        simp only [colData, h, if_true, List.length_append, hflt, List.length_cons]
        rw [rowValues_length col cabecalho r h.symm, ih, Nat.mul_succ]
        exact Nat.add_comm _ _
      · have hflt : (List.filter (fun r => decide (r.length = cabecalho.length)) (r :: t))
            = List.filter (fun r => decide (r.length = cabecalho.length)) t := by
          simp [List.filter_cons, h]
        simp only [colData, h, if_false, hflt]
        exact ih
  · intro i j hi hj hij
    simp only [relatorio, List.getElem?_map, List.getElem?_eq_getElem hi,
      List.getElem?_eq_getElem hj, Option.map_some]
    rw [hij]

/-- Witness for C10 at the duplicated header `["a","a"]` with one
well-formed row: column `a` accumulates both cells, and the two report
blocks coincide. -/
theorem claim_C10_witness :
    ((colData ["a", "a"] "a" [["1", "2"]]).length
      = (["a", "a"] : List String).count "a"
        * (([["1", "2"]] : List (List String)).filter
            (fun r => r.length = (["a", "a"] : List String).length)).length)
    ∧ (relatorio ["a", "a"] [["1", "2"]])[0]? = (relatorio ["a", "a"] [["1", "2"]])[1]? :=
  ⟨(claim_C10 ["a", "a"] [["1", "2"]] "a").1,
   (claim_C10 ["a", "a"] [["1", "2"]] "a").2 0 1 (by decide) (by decide) rfl⟩

/-- C2: type inference precedence on concrete cells, with the pipeline's
trimming applied first (`main.py` line 62): `"42"` is `"int"` (Integer),
`"42.0"` is `"float"` (Float), `"42abc"` is `"string"` (Text), `""` and the
whitespace-only `"   "` are `"vazio"` (Empty). -/
theorem claim_C2 :
    classifyCell "42" = "int" ∧ classifyCell "42.0" = "float"
      ∧ classifyCell "42abc" = "string" ∧ classifyCell "" = "vazio"
      ∧ classifyCell "   " = "vazio" := by
  refine ⟨by decide, by decide, by decide, by decide, by decide⟩

/-- C8: a column whose non-empty count is zero is reported as all-empty
(`main.py` lines 90-92 print the notice and `continue`), with no predominant
type and no top-N entries (the `allEmpty` summary carries neither);
concretely, header `["z"]` with rows `[[""],[""]]` has non-empty count 0 and
an all-empty block for `z`. -/
theorem claim_C8 (coluna : String) (valores : List String)
    (h : (valores.filter (fun v => v ≠ "")).length = 0) :
    columnSummary coluna valores = ColumnSummary.allEmpty coluna
    ∧ ((colData ["z"] "z" [[""], [""]]).filter (fun v => v ≠ "")).length = 0
    ∧ relatorio ["z"] [[""], [""]] = [ColumnSummary.allEmpty "z"] := by
  refine ⟨?_, by decide, by decide⟩
  have h0 : valores.filter (fun v => v ≠ "") = [] := List.length_eq_zero.mp h
  simp only [columnSummary, h0, List.isEmpty_nil, if_true]

/-- Witness for C8 at the all-empty column `z` of the concrete example. -/
theorem claim_C8_witness :
    columnSummary "z" (colData ["z"] "z" [[""], [""]]) = ColumnSummary.allEmpty "z"
    ∧ ((colData ["z"] "z" [[""], [""]]).filter (fun v => v ≠ "")).length = 0
    ∧ relatorio ["z"] [[""], [""]] = [ColumnSummary.allEmpty "z"] :=
  claim_C8 "z" (colData ["z"] "z" [[""], [""]]) (by decide)

theorem mem_insertByCount (p x : String × Nat) :
    ∀ l : List (String × Nat), x ∈ insertByCount p l ↔ x = p ∨ x ∈ l := by
  intro l
  induction l with
  | nil => simp [insertByCount]
  | cons q qs ih =>
    by_cases h : q.2 ≤ p.2
    · simp only [insertByCount, if_pos h, List.mem_cons]
    · simp only [insertByCount, if_neg h, List.mem_cons, ih]
      tauto

theorem mem_sortByCountDesc (x : String × Nat) (l : List (String × Nat)) :
    x ∈ sortByCountDesc l ↔ x ∈ l := by
  induction l with
  | nil => simp [sortByCountDesc]
  | cons p t ih =>
    show x ∈ insertByCount p (sortByCountDesc t) ↔ _
    rw [mem_insertByCount, ih, List.mem_cons]

theorem pairwise_insertByCount (p : String × Nat) (l : List (String × Nat))
    (h : l.Pairwise (fun a b => b.2 ≤ a.2)) :
    (insertByCount p l).Pairwise (fun a b => b.2 ≤ a.2) := by
  induction l with
  | nil => simp [insertByCount]
  | cons q qs ih =>
    rw [List.pairwise_cons] at h
    obtain ⟨hq, hqs⟩ := h
    by_cases hle : q.2 ≤ p.2
    · simp only [insertByCount, if_pos hle]
      refine List.Pairwise.cons ?_ (List.Pairwise.cons hq hqs)
      intro b hb
      rcases List.mem_cons.mp hb with rfl | hb
      · exact hle
      · exact le_trans (hq b hb) hle
    · simp only [insertByCount, if_neg hle]
      refine List.Pairwise.cons ?_ (ih hqs)
      intro b hb
      rcases (mem_insertByCount p b qs).mp hb with rfl | hb
      · exact le_of_not_le hle
      · exact hq b hb

theorem pairwise_sortByCountDesc (l : List (String × Nat)) :
    (sortByCountDesc l).Pairwise (fun a b => b.2 ≤ a.2) := by
  induction l with
  | nil => simp [sortByCountDesc]
  | cons p t ih => exact pairwise_insertByCount p _ ih

theorem filter_insertByCount (c : Nat) (p : String × Nat) :
    ∀ l : List (String × Nat),
      (insertByCount p l).filter (fun q => q.2 = c)
        = (if p.2 = c then [p] else []) ++ l.filter (fun q => q.2 = c) := by
  intro l
  induction l with
  | nil => by_cases h : p.2 = c <;> simp [insertByCount, List.filter_cons, h]
  | cons q qs ih =>
    by_cases hle : q.2 ≤ p.2
    · simp only [insertByCount, if_pos hle]
      by_cases h : p.2 = c <;> simp [List.filter_cons, h]
    · simp only [insertByCount, if_neg hle]
      by_cases hq : q.2 = c
      · have hp : ¬ p.2 = c := by omega
        simp [List.filter_cons, hq, hp, ih]
      · simp [List.filter_cons, hq, ih]

theorem filter_sortByCountDesc (c : Nat) (l : List (String × Nat)) :
    (sortByCountDesc l).filter (fun q => q.2 = c) = l.filter (fun q => q.2 = c) := by
  induction l with
  | nil => rfl
  | cons p t ih =>
    show (insertByCount p (sortByCountDesc t)).filter _ = _
    rw [filter_insertByCount, ih, List.filter_cons]
    by_cases h : p.2 = c <;> simp [h]

theorem le_maxCount {x : String × Nat} {l : List (String × Nat)} (hx : x ∈ l) :
    x.2 ≤ maxCount l := by
  induction l with
  | nil => cases hx
  | cons p t ih =>
    rcases List.mem_cons.mp hx with rfl | hx
    · exact Nat.le_max_left _ _
    · exact le_trans (ih hx) (Nat.le_max_right _ _)

theorem insertByCount_ne_nil (p : String × Nat) (l : List (String × Nat)) :
    insertByCount p l ≠ [] := by
  cases l with
  | nil => simp [insertByCount]
  | cons q qs => by_cases h : q.2 ≤ p.2 <;> simp [insertByCount, h]

theorem sortByCountDesc_eq_nil {l : List (String × Nat)}
    (h : sortByCountDesc l = []) : l = [] := by
  cases l with
  | nil => rfl
  | cons p t => exact absurd h (insertByCount_ne_nil p _)

theorem head?_sortByCountDesc :
    ∀ l : List (String × Nat),
      (sortByCountDesc l).head? = l.find? (fun p => decide (maxCount l ≤ p.2)) := by
  intro l
  induction l with
  | nil => rfl
  | cons p rest ih =>
    have hmax : maxCount (p :: rest) = max p.2 (maxCount rest) := rfl
    show (insertByCount p (sortByCountDesc rest)).head? = _
    by_cases hle : maxCount rest ≤ p.2
    · have hcond : (fun x : String × Nat => decide (maxCount (p :: rest) ≤ x.2)) p = true := by
        simp only [decide_eq_true_eq, hmax]
        exact max_le (le_refl _) hle
      rw [@List.find?_cons_of_pos (String × Nat)
        (fun x => decide (maxCount (p :: rest) ≤ x.2)) p rest hcond]
      cases hs : sortByCountDesc rest with
      | nil => simp [insertByCount]
      | cons q qs =>
        have hq : q ∈ rest :=
          (mem_sortByCountDesc q rest).mp (hs ▸ List.mem_cons_self q qs)
        have hq2 : q.2 ≤ p.2 := le_trans (le_maxCount hq) hle
        simp [insertByCount, hq2]
    · have hlt : p.2 < maxCount rest := Nat.lt_of_not_le hle
      have h1 : maxCount (p :: rest) = maxCount rest := by
        rw [hmax]; exact max_eq_right (le_of_lt hlt)
      rw [h1]
      have hcond : ¬ ((fun x : String × Nat => decide (maxCount rest ≤ x.2)) p = true) := by
        simp only [decide_eq_true_eq]; omega
      rw [@List.find?_cons_of_neg (String × Nat)
        (fun x => decide (maxCount rest ≤ x.2)) p rest hcond, ← ih]
      cases hs : sortByCountDesc rest with
      | nil =>
        have : rest = [] := sortByCountDesc_eq_nil hs
        subst this
        simp [maxCount] at hlt
      | cons q qs =>
        have hqmax : maxCount rest ≤ q.2 := by
          have hfind : rest.find? (fun x => decide (maxCount rest ≤ x.2)) = some q := by
            rw [← ih, hs]; rfl
          simpa using List.find?_some hfind
        have hq2 : ¬ q.2 ≤ p.2 := by omega
        simp [insertByCount, hq2]

/-- C4 (amended): `most_common(1)` breaks count ties by the first type to
occur in the column's value sequence (`Counter` insertion order), not by the
fixed precedence order; formally, the predominant type is the first entry of
the frequency table (which lists types in first-occurrence order) whose
tally reaches the maximum tally. -/
theorem claim_C4 (naoVazios : List String) :
    tipo_predominante naoVazios
      = (((frequencyPairs (naoVazios.map inferir_tipo_dado)).find?
          (fun p => decide (maxCount (frequencyPairs (naoVazios.map inferir_tipo_dado)) ≤ p.2))).getD
            ("", 0)).1 := by
  unfold tipo_predominante mostCommon
  rw [List.headD_eq_head?, List.head?_take]
  simp only [one_ne_zero, if_false]
  rw [head?_sortByCountDesc]

/-- Counterexample to C4 as stated: in the column built from header `["a"]`
and rows `[["3.5"],["2"]]`, Float and Integer tie at one tally each; the
precedence rule of the claim picks Integer, but the source picks Float (the
first type encountered). -/
theorem claim_C4_cex :
    tipo_predominante (colData ["a"] "a" [["3.5"], ["2"]]) = "float"
    ∧ specPredominant (colData ["a"] "a" [["3.5"], ["2"]]) = "int"
    ∧ ("float" : String) ≠ "int" := by
  refine ⟨by decide, by decide, by decide⟩

/-- C6: top-N determinism. On `["a","b","a","c","b","a"]`, `top_n(5)` is
exactly `a` (3, 50.0%), `b` (2, 33.3%), `c` (1, 16.7%) in that order
(percentages in tenths of a percent); in general the ranking is sorted by
descending count and, for any fixed count, preserves the frequency table's
first-occurrence order (stability). -/
theorem claim_C6 :
    top5 ["a", "b", "a", "c", "b", "a"] = [("a", 3, 500), ("b", 2, 333), ("c", 1, 167)]
    ∧ (∀ l : List (String × Nat), (sortByCountDesc l).Pairwise (fun p q => q.2 ≤ p.2))
    ∧ ∀ (l : List (String × Nat)) (c : Nat),
        (sortByCountDesc l).filter (fun q => q.2 = c) = l.filter (fun q => q.2 = c) :=
  ⟨by decide, pairwise_sortByCountDesc, fun l c => filter_sortByCountDesc c l⟩

theorem mem_of_head? {l : List Char} {c : Char} (h : l.head? = some c) : c ∈ l := by
  cases l with
  | nil => cases h
  | cons a t =>
    simp at h
    subst h
    exact List.mem_cons_self _ _

theorem mem_of_getLast? {l : List Char} {c : Char} (h : l.getLast? = some c) : c ∈ l := by
  have hr : l.reverse.head? = some c := by rw [List.head?_reverse]; exact h
  exact List.mem_reverse.mp (mem_of_head? hr)

theorem head?_dropWhile_pyIsSpace :
    ∀ (l : List Char) (c : Char),
      (l.dropWhile pyIsSpace).head? = some c → pyIsSpace c = false := by
  intro l
  induction l with
  | nil => intro c h; cases h
  | cons a t ih =>
    intro c h
    by_cases ha : pyIsSpace a = true
    · rw [List.dropWhile_cons, if_pos ha] at h
      exact ih c h
    · rw [List.dropWhile_cons, if_neg ha] at h
      simp at h
      subst h
      simpa using ha

theorem dropWhile_pyIsSpace_getLast? :
    ∀ l : List Char, l.dropWhile pyIsSpace ≠ [] →
      (l.dropWhile pyIsSpace).getLast? = l.getLast? := by
  intro l
  induction l with
  | nil => intro h; exact absurd rfl h
  | cons a t ih =>
    intro h
    by_cases ha : pyIsSpace a = true
    · rw [List.dropWhile_cons, if_pos ha] at h ⊢
      rw [ih h]
      have ht : t ≠ [] := by
        intro he
        subst he
        exact h rfl
      cases t with
      | nil => exact absurd rfl ht
      | cons b bs => rw [List.getLast?_cons_cons]
    · rw [List.dropWhile_cons, if_neg ha]

theorem pyStrip_head? (s : String) :
    ∀ c, (pyStrip s).data.head? = some c → pyIsSpace c = false := by
  intro c h
  have h' : (((s.data.dropWhile pyIsSpace).reverse.dropWhile pyIsSpace).reverse).head? = some c := h
  rw [List.head?_reverse] at h'
  by_cases hb : (s.data.dropWhile pyIsSpace).reverse.dropWhile pyIsSpace = []
  · rw [hb] at h'
    cases h'
  · rw [dropWhile_pyIsSpace_getLast? _ hb, List.getLast?_reverse] at h'
    exact head?_dropWhile_pyIsSpace s.data c h'

theorem pyStrip_getLast? (s : String) :
    ∀ c, (pyStrip s).data.getLast? = some c → pyIsSpace c = false := by
  intro c h
  have h' : (((s.data.dropWhile pyIsSpace).reverse.dropWhile pyIsSpace).reverse).getLast?
      = some c := h
  rw [List.getLast?_reverse] at h'
  exact head?_dropWhile_pyIsSpace _ c h'

theorem pyStrip_eq_self {t : String}
    (h1 : ∀ c, t.data.head? = some c → pyIsSpace c = false)
    (h2 : ∀ c, t.data.getLast? = some c → pyIsSpace c = false) :
    pyStrip t = t := by
  have e1 : t.data.dropWhile pyIsSpace = t.data := by
    cases hd : t.data with
    | nil => rfl
    | cons a l =>
      have ha : pyIsSpace a = false := h1 a (by rw [hd]; rfl)
      rw [List.dropWhile_cons, if_neg (by simp [ha])]
  have e2 : t.data.reverse.dropWhile pyIsSpace = t.data.reverse := by
    cases hr : t.data.reverse with
    | nil => rfl
    | cons a l =>
      have hla : t.data.getLast? = some a := by
        rw [← List.head?_reverse, hr]
        rfl
      have ha : pyIsSpace a = false := h2 a hla
      rw [List.dropWhile_cons, if_neg (by simp [ha])]
  show String.mk (((t.data.dropWhile pyIsSpace).reverse.dropWhile pyIsSpace).reverse) = t
  rw [e1, e2, List.reverse_reverse]

theorem pyStrip_idem (s : String) : pyStrip (pyStrip s) = pyStrip s :=
  pyStrip_eq_self (pyStrip_head? s) (pyStrip_getLast? s)

theorem pyStrip_eq_self_of_all {t : String} (h : ∀ c ∈ t.data, pyIsSpace c = false) :
    pyStrip t = t :=
  pyStrip_eq_self (fun c hc => h c (mem_of_head? hc)) (fun c hc => h c (mem_of_getLast? hc))

theorem digitRun_unfold_ne (c : Char) (t : List Char) (hc : c ≠ '_') :
    digitRun (c :: t) = (c.isDigit && digitRun t) := by
  conv_lhs => rw [digitRun.eq_def]
  simp only [if_neg hc]

theorem digitRun_unfold_underscore (d : Char) (ds : List Char) :
    digitRun ('_' :: d :: ds) = (d.isDigit && digitRun ds) := by
  conv_lhs => rw [digitRun.eq_def]
  simp only [if_pos]

theorem digitRun_iff : ∀ cs : List Char,
    digitRun cs = true ↔
      ((∀ c ∈ cs, digitOrUnderscore c = true) ∧ noDoubleUnderscore cs = true
        ∧ cs.getLast? ≠ some '_') := by
  intro cs
  induction cs with
  | nil => simp [show digitRun [] = true from rfl, noDoubleUnderscore]
  | cons c t ih =>
    by_cases hc : c = '_'
    · subst hc
      cases t with
      | nil => simp [show digitRun ['_'] = false from by decide, noDoubleUnderscore]
      | cons d ds =>
        by_cases hd : d = '_'
        · subst hd
          have h0 : digitRun ('_' :: '_' :: ds) = false := by
            rw [digitRun_unfold_underscore, show ('_').isDigit = false from rfl,
              Bool.false_and]
          simp [h0, noDoubleUnderscore]
        · have h2 : digitRun (d :: ds) = (d.isDigit && digitRun ds) :=
            digitRun_unfold_ne d ds hd
          rw [digitRun_unfold_underscore, ← h2, ih]
          constructor
          · rintro ⟨hall, hnd, hlast⟩
            refine ⟨?_, ?_, ?_⟩
            · intro x hx
              rcases List.mem_cons.mp hx with rfl | hx
              · decide
              · exact hall x hx
            · simp only [noDoubleUnderscore, Bool.and_eq_true]
              exact ⟨by simp [hd], hnd⟩
            · rw [List.getLast?_cons_cons]
              exact hlast
          · rintro ⟨hall, hnd, hlast⟩
            refine ⟨fun x hx => hall x (List.mem_cons_of_mem _ hx), ?_, ?_⟩
            · simp only [noDoubleUnderscore, Bool.and_eq_true] at hnd
              exact hnd.2
            · rw [List.getLast?_cons_cons] at hlast
              exact hlast
    · rw [digitRun_unfold_ne c t hc, Bool.and_eq_true, ih]
      cases t with
      | nil =>
        constructor
        · rintro ⟨hcd, -⟩
          refine ⟨?_, by rfl, ?_⟩
          · intro x hx
            have hxc : x = c := by simpa using hx
            subst hxc
            simp [digitOrUnderscore, hcd]
          · simp [hc]
        · rintro ⟨hall, -, -⟩
          have hcd := hall c (by simp)
          have hcdig : c.isDigit = true := by simpa [digitOrUnderscore, hc] using hcd
          refine ⟨hcdig, by simp, by rfl, by simp⟩
      | cons d ds =>
        constructor
        · rintro ⟨hcd, hall, hnd, hlast⟩
          refine ⟨?_, ?_, ?_⟩
          · intro x hx
            rcases List.mem_cons.mp hx with rfl | hx
            · simp [digitOrUnderscore, hcd]
            · exact hall x hx
          · simp only [noDoubleUnderscore, Bool.and_eq_true]
            exact ⟨by simp [hc], hnd⟩
          · rw [List.getLast?_cons_cons]
            exact hlast
        · rintro ⟨hall, hnd, hlast⟩
          have hcd := hall c (List.mem_cons_self _ _)
          have hcdig : c.isDigit = true := by simpa [digitOrUnderscore, hc] using hcd
          simp only [noDoubleUnderscore, Bool.and_eq_true] at hnd
          rw [List.getLast?_cons_cons] at hlast
          exact ⟨hcdig, fun x hx => hall x (List.mem_cons_of_mem _ hx), hnd.2, hlast⟩

theorem validDigitRun_iff (ds : List Char) :
    validDigitRun ds = true ↔
      (ds ≠ [] ∧ (∀ c ∈ ds, digitOrUnderscore c = true) ∧ ds.head? ≠ some '_'
        ∧ ds.getLast? ≠ some '_' ∧ noDoubleUnderscore ds = true) := by
  cases ds with
  | nil => simp [validDigitRun]
  | cons c t =>
    rw [show validDigitRun (c :: t) = (c.isDigit && digitRun t) from rfl,
      Bool.and_eq_true, digitRun_iff]
    constructor
    · rintro ⟨hcd, hall, hnd, hlast⟩
      have hc : c ≠ '_' := by
        intro he
        subst he
        simp at hcd
      refine ⟨by simp, ?_, by simp [hc], ?_, ?_⟩
      · intro x hx
        rcases List.mem_cons.mp hx with rfl | hx
        · simp [digitOrUnderscore, hcd]
        · exact hall x hx
      · cases t with
        | nil => simp [hc]
        | cons d ds' => rw [List.getLast?_cons_cons]; exact hlast
      · cases t with
        | nil => rfl
        | cons d ds' =>
          simp only [noDoubleUnderscore, Bool.and_eq_true]
          exact ⟨by simp [hc], hnd⟩
    · rintro ⟨-, hall, hhead, hlast, hnd⟩
      have hc : c ≠ '_' := by
        intro he
        subst he
        simp at hhead
      have hcd : digitOrUnderscore c = true := hall c (List.mem_cons_self c t)
      have hcdig : c.isDigit = true := by
        rcases (by simpa [digitOrUnderscore] using hcd : c.isDigit = true ∨ c = '_') with h | h
        · exact h
        · exact absurd h hc
      refine ⟨hcdig, fun x hx => hall x (List.mem_cons_of_mem c hx), ?_, ?_⟩
      · cases t with
        | nil => rfl
        | cons d ds' =>
          simp only [noDoubleUnderscore, Bool.and_eq_true] at hnd
          exact hnd.2
      · cases t with
        | nil => simp
        | cons d ds' =>
          rw [List.getLast?_cons_cons] at hlast
          exact hlast

theorem inferir_eq_int_iff (t : String) :
    inferir_tipo_dado t = "int" ↔ (t ≠ "" ∧ pyIntParseable t = true) := by
  unfold inferir_tipo_dado
  by_cases h1 : t = ""
  · simp [h1]
  · by_cases h2 : pyIntParseable t
    · simp [h1, h2]
    · by_cases h3 : pyFloatParseable t <;> simp [h1, h2, h3]

theorem pyIntParseable_strip (s : String) :
    pyIntParseable (pyStrip s) = validDigitRun (stripSign (pyStrip s).data) := by
  unfold pyIntParseable
  rw [pyStrip_idem]

theorem specBody_iff (ds : List Char) :
    (!ds.isEmpty && ds.all digitOrUnderscore && !(ds.head? == some '_')
      && !(ds.getLast? == some '_') && noDoubleUnderscore ds) = true
      ↔ validDigitRun ds = true := by
  rw [validDigitRun_iff]
  simp only [Bool.and_eq_true, Bool.not_eq_true', beq_eq_false_iff_ne, ne_eq,
    List.all_eq_true, List.isEmpty_eq_false_iff_exists_mem]
  constructor
  · rintro ⟨⟨⟨⟨hne, hall⟩, hhead⟩, hlast⟩, hnd⟩
    obtain ⟨x, hx⟩ := hne
    refine ⟨?_, hall, hhead, hlast, hnd⟩
    intro he
    subst he
    cases hx
  · rintro ⟨hne, hall, hhead, hlast, hnd⟩
    refine ⟨⟨⟨⟨?_, hall⟩, hhead⟩, hlast⟩, hnd⟩
    cases ds with
    | nil => exact absurd rfl hne
    | cons a l => exact ⟨a, List.mem_cons_self a l⟩

/-- Counterexample to C7 as stated: Python's `int()` accepts the `_` digit
separator, so the source classifies `"1_000"` as Integer even though it is
not optional-sign-then-digits-only. -/
theorem claim_C7_cex :
    classifyCell "1_000" = "int" ∧ specIntegerLexeme "1_000" = false := by
  refine ⟨by decide, by decide⟩

/-- C7 (amended): a string is classified as Integer by the type inferrer
exactly when, after trimming, it consists of an optional leading `+` or `-`
followed by base-10 digits optionally separated by single underscores, each
underscore occurring strictly between two digits (Python's int-literal
underscore rule); still no decimal point, no exponent, no residual
whitespace and no other characters. -/
theorem claim_C7 (s : String) :
    classifyCell s = "int" ↔ specIntegerLexemeAmended s = true := by
  rw [classifyCell, inferir_eq_int_iff, pyIntParseable_strip]
  simp only [specIntegerLexemeAmended]
  rw [specBody_iff]
  constructor
  · rintro ⟨-, h⟩
    exact h
  · intro h
    refine ⟨?_, h⟩
    intro he
    rw [he] at h
    exact absurd h (by decide)

theorem kwLetters_prop (k c : Char)
    (hk : k ∈ (['i', 'n', 'f', 't', 'y', 'a'] : List Char))
    (hc : c = k ∨ c = upperVariant k) :
    pyIsSpace c = false ∧ c.isDigit = false ∧ c ≠ '+' ∧ c ≠ '-' := by
  fin_cases hk <;> rcases hc with rfl | rfl <;> decide

theorem matchCI_chars :
    ∀ ks cs : List Char, (∀ k ∈ ks, k ∈ (['i', 'n', 'f', 't', 'y', 'a'] : List Char)) →
      matchCI ks cs = true →
      ∀ c ∈ cs, pyIsSpace c = false ∧ c.isDigit = false ∧ c ≠ '+' ∧ c ≠ '-' := by
  intro ks
  induction ks with
  | nil =>
    intro cs _ hm c hc
    cases cs with
    | nil => simp at hc
    | cons a t => simp [matchCI] at hm
  | cons k ks ih =>
    intro cs hks hm c hc
    cases cs with
    | nil => simp at hc
    | cons a t =>
      rw [show matchCI (k :: ks) (a :: t)
          = ((a = k || a = upperVariant k) && matchCI ks t) from rfl,
        Bool.and_eq_true] at hm
      obtain ⟨h1, h2⟩ := hm
      rcases List.mem_cons.mp hc with rfl | hc
      · have hck : c = k ∨ c = upperVariant k := by simpa using h1
        exact kwLetters_prop k c (hks k (List.mem_cons_self _ _)) hck
      · exact ih t (fun x hx => hks x (List.mem_cons_of_mem _ hx)) h2 c hc

theorem matchCI_ne_nil {ks cs : List Char} (hks : ks ≠ []) (hm : matchCI ks cs = true) :
    cs ≠ [] := by
  cases ks with
  | nil => exact absurd rfl hks
  | cons k ks' =>
    cases cs with
    | nil => simp [matchCI] at hm
    | cons a t => simp

/-- C9: the type inferrer classifies the non-finite float keywords accepted
by Python's `float()` — `inf`, `infinity` and `nan` in any letter case,
optionally preceded by a single `+` or `-` — as `"float"` (Float), not as
`"string"` (Text): `float(...)` succeeds on them after `int(...)` fails
(`main.py` lines 29-34). -/
theorem claim_C9 (sign : String) (kw : List Char) (s : String)
    (hsign : sign = "" ∨ sign = "+" ∨ sign = "-")
    (hkw : matchCI infKw kw = true ∨ matchCI infinityKw kw = true
      ∨ matchCI nanKw kw = true)
    (hs : s.data = sign.data ++ kw) :
    inferir_tipo_dado s = "float" := by
  have hkwchars : ∀ c ∈ kw, pyIsSpace c = false ∧ c.isDigit = false ∧ c ≠ '+' ∧ c ≠ '-' := by
    rcases hkw with h | h | h
    · exact matchCI_chars infKw kw (by decide) h
    · exact matchCI_chars infinityKw kw (by decide) h
    · exact matchCI_chars nanKw kw (by decide) h
  have hkwne : kw ≠ [] := by
    rcases hkw with h | h | h
    · exact matchCI_ne_nil (by decide) h
    · exact matchCI_ne_nil (by decide) h
    · exact matchCI_ne_nil (by decide) h
  have hall : ∀ c ∈ s.data, pyIsSpace c = false := by
    intro c hc
    rw [hs] at hc
    rcases List.mem_append.mp hc with hc | hc
    · rcases hsign with rfl | rfl | rfl
      · rw [show ("" : String).data = [] from rfl] at hc
        simp at hc
      · rw [show ("+" : String).data = ['+'] from rfl] at hc
        have hcp : c = '+' := by simpa using hc
        subst hcp
        decide
      · rw [show ("-" : String).data = ['-'] from rfl] at hc
        have hcm : c = '-' := by simpa using hc
        subst hcm
        decide
    · exact (hkwchars c hc).1
  have hstrip : pyStrip s = s := pyStrip_eq_self_of_all hall
  have hsne : s ≠ "" := by
    intro he
    rw [he, show ("" : String).data = [] from rfl] at hs
    exact hkwne (List.append_eq_nil.mp hs.symm).2
  have hcs : stripSign (sign.data ++ kw) = kw := by
    rcases hsign with rfl | rfl | rfl
    · rw [show ("" : String).data = [] from rfl, List.nil_append]
      cases hkc : kw with
      | nil => rfl
      | cons c rest =>
        have hc := hkwchars c (by rw [hkc]; exact List.mem_cons_self _ _)
        rw [show stripSign (c :: rest)
            = (if c = '+' || c = '-' then rest else c :: rest) from rfl,
          if_neg (by simp [hc.2.2.1, hc.2.2.2])]
    · rw [show ("+" : String).data = ['+'] from rfl, List.cons_append, List.nil_append,
        show stripSign ('+' :: kw) = (if ('+' : Char) = '+' || ('+' : Char) = '-'
          then kw else '+' :: kw) from rfl, if_pos (by decide)]
    · rw [show ("-" : String).data = ['-'] from rfl, List.cons_append, List.nil_append,
        show stripSign ('-' :: kw) = (if ('-' : Char) = '+' || ('-' : Char) = '-'
          then kw else '-' :: kw) from rfl, if_pos (by decide)]
  have hint : pyIntParseable s = false := by
    unfold pyIntParseable
    rw [hstrip, hs, hcs]
    cases hkc : kw with
    | nil => exact absurd hkc hkwne
    | cons c rest =>
      have hc := hkwchars c (by rw [hkc]; exact List.mem_cons_self _ _)
      rw [show validDigitRun (c :: rest) = (c.isDigit && digitRun rest) from rfl, hc.2.1,
        Bool.false_and]
  have hfloat : pyFloatParseable s = true := by
    simp only [pyFloatParseable]
    rw [hstrip, hs, hcs]
    rcases hkw with h | h | h <;> simp [h]
  unfold inferir_tipo_dado
  simp [hsne, hint, hfloat]

/-- Witness for C9 at the signed, mixed-case keyword `"-NaN"`. -/
theorem claim_C9_witness :
    inferir_tipo_dado "-NaN" = "float" :=
  claim_C9 "-" ['N', 'a', 'N'] "-NaN" (by tauto) (by decide) (by decide)
